import Mathlib

/-!
Verification of the ProductViz repository analytics dashboard.

This file gives a shallow embedding, in Lean, of the core computational logic
of the ProductViz code base and proves (or refutes) the properties stated in
its natural-language specification.

Embedded components:
* the Derived-Metrics Engine of the front-end
  (`prepareLanguageData`, `prepareCommitActivityData`, `getIssueStats`,
  `getTopLabels`, plus the inline duplicates of the single-view branch);
* the Health Scorer (`calculateHealthScore`);
* the URL validator (`validateRepoUrl`, backend `src/utils/validation.ts`);
* the aggregation / error-surfacing pipeline
  (`getFullAnalytics` of `githubService` and the Express `errorHandler`).

Modelling conventions:
* JavaScript numbers reaching this code come from `JSON.parse` of upstream
  REST responses, so they are never `NaN`/`Infinity`; they are modelled as
  exact rationals (`ℚ`).  `NaN` can nevertheless arise *inside* the Health
  Scorer (from `new Date(..).getTime()` on an unparsable timestamp); wherever
  that can happen the value is modelled as `Option ℚ` with `none` playing the
  role of `NaN`, and the operations propagate `none` exactly as the JS
  operations propagate `NaN`.
* `new Date(s).getTime()` is an external built-in; a timestamp field is
  therefore embedded directly as its parse result `Option ℚ` (epoch
  milliseconds, `none` for an invalid date).  Note `new Date` never throws.
* Fields that the embedded functions never read are omitted from the record
  types; fields tested with `typeof x === 'string'` or by truthiness are
  given a small JS-value type below.
* Strings used by the URL validator are modelled as `List Char`.
-/

namespace ProductViz

/-- A JavaScript value in a field that the code inspects with
`typeof v === 'string'`, with `v === 'lit'`, or by truthiness: either an
actual string, or some non-string value of which only the truthiness can
matter to the embedded code. -/
inductive JsVal where
  | vstr (s : String)
  | vother (truthy : Bool)
deriving DecidableEq, Repr

/-- JS truthiness of a `JsVal`; a string is truthy iff it is non-empty. -/
def JsVal.isTruthy : JsVal → Bool
  | .vstr s => s ≠ ""
  | .vother b => b

/-- Strict equality `v === lit` against a string literal: a non-string value
is never strictly equal to a string. -/
def JsVal.eqStr : JsVal → String → Bool
  | .vstr s, t => s = t
  | .vother _, _ => false

/-- The test `typeof v === 'string'`. -/
def JsVal.isString : JsVal → Bool
  | .vstr _ => true
  | .vother _ => false

/-- Truthiness of a nullable string field (`null`/missing or `""` are falsy). -/
def jsTruthyStr : Option String → Bool
  | some s => s ≠ ""
  | none => false

/-- JS `x || 0` on a (non-NaN) number: returns `0` when `x` is falsy (i.e.
`x = 0`) and `x` otherwise — the identity on `ℚ`. -/
def jsOrZero (q : ℚ) : ℚ := if q = 0 then 0 else q

@[simp] theorem jsOrZero_eq (q : ℚ) : jsOrZero q = q := by
  unfold jsOrZero; split <;> simp_all

/-- JS `Math.round`: round half toward positive infinity. -/
def jround (q : ℚ) : ℤ := ⌊q + 1 / 2⌋

/-- JS `Number.prototype.toFixed(1)`, on exact rationals: round to the
nearest multiple of `1/10`, ties away from zero (all values rounded by the
embedded code are non-negative). -/
def toFixed1 (q : ℚ) : ℚ := (⌊q * 10 + 1 / 2⌋ : ℚ) / 10

/-! ## Data model (`src/types/github.ts` / `types.ts`), restricted to the
fields the embedded functions read. -/

/-- Repository metadata (`GitHubRepo`).  `created_at`/`updated_at` hold the
result of `new Date(field).getTime()` (epoch ms; `none` = invalid date). -/
structure GitHubRepo where
  description : Option String
  license : Option String
  open_issues_count : ℚ
  stargazers_count : ℚ
  forks_count : ℚ
  watchers_count : ℚ
  created_at : Option ℚ
  updated_at : Option ℚ
deriving DecidableEq, Repr

/-- One contributor record; only the list length matters to the embedded
code. -/
structure GitHubContributor where
  login : String
  contributions : ℚ
deriving DecidableEq, Repr

/-- An issue label (`{ name, color }`); a `none` entry in a label list is a
null/undefined element. -/
structure IssueLabel where
  name : String
  color : String
deriving DecidableEq, Repr

/-- An issue record; `state` is inspected with `typeof`/`===`/truthiness. -/
structure GitHubIssue where
  state : JsVal
  labels : List (Option IssueLabel)
deriving DecidableEq, Repr

/-- One weekly commit-activity bucket; `week`/`total` are `none` when the
corresponding field is not of number type (`typeof w !== 'number'`). -/
structure CommitActivityWeek where
  week : Option ℚ
  total : Option ℚ
deriving DecidableEq, Repr

/-- The analytics snapshot (`RepoAnalytics`).  The collections that the code
guards with `x && Array.isArray(x)` are `Option`s (`none` = absent or not an
array), and their elements are `Option`s (`none` = null element). -/
structure RepoAnalytics where
  repo : GitHubRepo
  contributors : Option (List GitHubContributor)
  issues : Option (List (Option GitHubIssue))
  commitActivity : Option (List (Option CommitActivityWeek))
  languages : List (String × ℚ)
deriving DecidableEq, Repr

/-- Models `i && p i` for a nullable issue record. -/
def issueTruthyAnd (p : GitHubIssue → Bool) : Option GitHubIssue → Bool
  | some i => p i
  | none => false

/-! ## Stable descending sort

JS `Array.prototype.sort` with comparator `(a, b) => key(b) - key(a)` is a
stable descending sort by `key`; it is embedded as a stable insertion sort. -/

/-- Insert `x` before the first element whose key is at most `key x`. -/
def insertDescBy {α β : Type} [LinearOrder β] (key : α → β) (x : α) :
    List α → List α
  | [] => [x]
  | y :: ys => if key y ≤ key x then x :: y :: ys else y :: insertDescBy key x ys

/-- Stable sort, descending by `key`. -/
def sortDescBy {α β : Type} [LinearOrder β] (key : α → β) : List α → List α
  | [] => []
  | x :: xs => insertDescBy key x (sortDescBy key xs)

theorem insertDescBy_perm {α β : Type} [LinearOrder β] (key : α → β) (x : α)
    (l : List α) : (insertDescBy key x l).Perm (x :: l) := by
  induction l with
  | nil => simp [insertDescBy]
  | cons y ys ih =>
    unfold insertDescBy
    split
    · exact List.Perm.refl _
    · exact ((ih.cons y).trans (List.Perm.swap x y ys))

theorem sortDescBy_perm {α β : Type} [LinearOrder β] (key : α → β)
    (l : List α) : (sortDescBy key l).Perm l := by
  induction l with
  | nil => simp [sortDescBy]
  | cons x xs ih =>
    exact (insertDescBy_perm key x (sortDescBy key xs)).trans (ih.cons x)

/-! ## Derived-Metrics Engine (front-end `part_000`; the single-view branch of
`part_001` contains inline duplicates, embedded separately where they
differ). -/

/-- Output row of the language-distribution projection (`LanguageData`).
The `percentage` field holds the rational value rendered by `toFixed(1)`. -/
structure LanguageData where
  name : String
  value : ℚ
  percentage : ℚ
  color : String
deriving DecidableEq, Repr

/-- The fixed language-to-colour table (`getLanguageColors`). -/
def getLanguageColors : List (String × String) :=
  [("JavaScript", "#f1e05a"), ("TypeScript", "#2b7489"), ("Python", "#3572A5"),
   ("Java", "#b07219"), ("C++", "#f34b7d"), ("C", "#555555"), ("C#", "#239120"),
   ("PHP", "#4F5D95"), ("Ruby", "#701516"), ("Go", "#00ADD8"),
   ("Rust", "#dea584"), ("Swift", "#ffac45"), ("Kotlin", "#F18E33"),
   ("Scala", "#c22d40"), ("Shell", "#89e051"), ("HTML", "#e34c26"),
   ("CSS", "#1572B6"), ("Vue", "#2c3e50"), ("React", "#61dafb")]

/-- Language distribution (`prepareLanguageData`): guard for a missing/empty
map, guard for a zero total, then filter out non-positive byte counts, map to
rows with a one-decimal percentage of the total, sort descending by byte
count, and keep the top 6. -/
def prepareLanguageData (languages : List (String × ℚ)) : List LanguageData :=
  if languages.isEmpty then []
  else
    let total : ℚ := (languages.map (fun p => p.2)).sum
    if total = 0 then []
    else
      (sortDescBy (fun d => d.value)
        ((languages.filter (fun p => 0 < p.2)).map (fun p =>
          { name := p.1
            value := p.2
            percentage := toFixed1 (p.2 / total * 100)
            color := ((getLanguageColors.lookup p.1).getD "#8884d8") }))).take 6

/-- Output row of the commit-activity projection (`CommitActivityData`).
`dateMs` is the epoch-millisecond value handed to
`new Date(..).toLocaleDateString()`; the locale rendering is not modelled. -/
structure CommitActivityData where
  week : String
  commits : ℚ
  dateMs : ℚ
deriving DecidableEq, Repr

/-- The well-formedness filter of `prepareCommitActivityData`
(`week && typeof week.week === 'number' && typeof week.total === 'number'`),
fused with the extraction of the two numeric fields. -/
def wellFormedWeeks (l : List (Option CommitActivityWeek)) : List (ℚ × ℚ) :=
  l.filterMap fun o =>
    match o with
    | some w =>
      match w.week, w.total with
      | some wk, some t => some (wk, t)
      | _, _ => none
    | none => none

/-- The `.map((week, index) => ...)` step: label each entry by its 1-based
position in the *filtered* list, clamp the total with `Math.max(0, total)`. -/
def labelWeeks (i : ℕ) : List (ℚ × ℚ) → List CommitActivityData
  | [] => []
  | (wk, t) :: ws =>
    { week := "Week " ++ toString (i + 1)
      commits := max 0 t
      dateMs := wk * 1000 } :: labelWeeks (i + 1) ws

/-- Commit-activity window (`prepareCommitActivityData`, identical inline as
`commitData` in the single view): filter malformed entries, label and clamp,
then `.slice(-12)`. -/
def prepareCommitActivityData
    (ca : Option (List (Option CommitActivityWeek))) : List CommitActivityData :=
  match ca with
  | none => []
  | some l =>
    let labelled := labelWeeks 0 (wellFormedWeeks l)
    labelled.drop (labelled.length - 12)

/-- Issue statistics record; the fields are named `open`, `closed`, `total`
in the source. -/
structure IssueStats where
  openCnt : ℕ
  closedCnt : ℕ
  total : ℕ
deriving DecidableEq, Repr

/-- Standalone issue statistics (`getIssueStats`): restrict to records whose
`state` is a string, count `state === 'open'` and `state === 'closed'`, and
return `total = open + closed`. -/
def getIssueStats (issues : Option (List (Option GitHubIssue))) : IssueStats :=
  match issues with
  | none => ⟨0, 0, 0⟩
  | some l =>
    let validIssues := l.filter (issueTruthyAnd (fun i => i.state.isString))
    let op := (validIssues.filter (issueTruthyAnd (fun i => i.state.eqStr "open"))).length
    let cl := (validIssues.filter (issueTruthyAnd (fun i => i.state.eqStr "closed"))).length
    ⟨op, cl, op + cl⟩

/-- Inline issue statistics of the single-view branch (`issueStats`,
`part_001` lines 818–825): here `total` counts every record with a *truthy*
state, not only `open`/`closed` ones. -/
def issueStatsInline (issues : Option (List (Option GitHubIssue))) : IssueStats :=
  match issues with
  | none => ⟨0, 0, 0⟩
  | some l =>
    ⟨(l.filter (issueTruthyAnd (fun i => i.state.eqStr "open"))).length,
     (l.filter (issueTruthyAnd (fun i => i.state.eqStr "closed"))).length,
     (l.filter (issueTruthyAnd (fun i => i.state.isTruthy))).length⟩

/-- One step of the label tally (`labelCount[label.name] = (labelCount[label.name] || 0) + 1`
on a JS object, whose key order is first-insertion order). -/
def bumpLabel (name : String) : List (String × ℕ) → List (String × ℕ)
  | [] => [(name, 1)]
  | (n, c) :: rest =>
    if n = name then (n, c + 1) :: rest else (n, c) :: bumpLabel name rest

/-- The nested `forEach` tally of `getTopLabels`: skip null issues, skip null
labels and labels with a falsy (empty) name. -/
def countLabels (issues : List (Option GitHubIssue)) : List (String × ℕ) :=
  issues.foldl
    (fun acc o =>
      match o with
      | some i =>
        i.labels.foldl
          (fun acc lo =>
            match lo with
            | some lb => if lb.name ≠ "" then bumpLabel lb.name acc else acc
            | none => acc)
          acc
      | none => acc)
    []

/-- A `{ name, count }` row of the top-label projection. -/
structure LabelCount where
  name : String
  count : ℕ
deriving DecidableEq, Repr

/-- Top labels (`getTopLabels`): tally label names across all issues, sort
descending by count (stable), keep the top 5. -/
def getTopLabels (issues : Option (List (Option GitHubIssue))) : List LabelCount :=
  match issues with
  | none => []
  | some l =>
    (sortDescBy (fun lc => lc.count)
      ((countLabels l).map (fun p => LabelCount.mk p.1 p.2))).take 5

/-! ## Health Scorer (`calculateHealthScore`, `part_001` lines 84–175)

The computation is embedded as one definition per `let`-bound intermediate of
the source, then assembled.  `Date.now()` is an explicit parameter `now`
(epoch ms).  Values that can be `NaN` in JS are `Option ℚ` with `none` =
`NaN`: `Math.min`/`Math.max`/arithmetic propagate `NaN`, and every
comparison with `NaN` is false. -/

/-- Sum of the last four well-formed commit-activity totals (`recentCommits`):
`slice(-4)`, keep entries that are truthy with a numeric `total`, sum the
totals.  The surrounding `try` is dead code — nothing in it can throw. -/
def recentCommitsQ (data : RepoAnalytics) : ℚ :=
  match data.commitActivity with
  | some l =>
    if l.isEmpty then 0
    else
      ((l.drop (l.length - 4)).filterMap fun o =>
        match o with
        | some w => w.total
        | none => none).sum
  | none => 0

/-- `activityScore = Math.min(100, (recentCommits / 50) * 100)`. -/
def activityScoreQ (data : RepoAnalytics) : ℚ :=
  min 100 (recentCommitsQ data / 50 * 100)

/-- `closedIssues`: count of fetched issue records with
`i && i.state === 'closed'` (0 when `issues` is absent or not an array). -/
def closedIssuesN (data : RepoAnalytics) : ℕ :=
  match data.issues with
  | some l => (l.filter (issueTruthyAnd (fun i => i.state.eqStr "closed"))).length
  | none => 0

/-- `maintenanceScore = issueRatio * 100` with
`issueRatio = totalIssues > 0 ? closedIssues / totalIssues : 0.5` and
`totalIssues = (repo.open_issues_count || 0) + closedIssues`. -/
def maintenanceScoreQ (data : RepoAnalytics) : ℚ :=
  let closed : ℚ := closedIssuesN data
  let totalIssues : ℚ := jsOrZero data.repo.open_issues_count + closed
  (if 0 < totalIssues then closed / totalIssues else 1 / 2) * 100

/-- `contributorCount`: length of the fetched contributor list (0 when
absent). -/
def contributorCountN (data : RepoAnalytics) : ℕ :=
  match data.contributors with
  | some l => l.length
  | none => 0

/-- `communityScore`: average of
`Math.min(100, contributorCount / 20 * 100)` and
`Math.min(100, (stargazers_count || 0) / 1000 * 100)`. -/
def communityScoreQ (data : RepoAnalytics) : ℚ :=
  (min 100 ((contributorCountN data : ℚ) / 20 * 100) +
   min 100 (jsOrZero data.repo.stargazers_count / 1000 * 100)) / 2

/-- `documentationScore`: 40 for a truthy description, 30 for a truthy
license, plus a flat 30 for an assumed README. -/
def documentationScoreQ (data : RepoAnalytics) : ℚ :=
  (if jsTruthyStr data.repo.description then 40 else 0) +
  (if data.repo.license.isSome then 30 else 0) + 30

/-- `ageScore = Math.min(100, ageInDays / 365 * 50)` where
`ageInDays = (Date.now() - created.getTime()) / 86400000`.  `new Date` never
throws on an unparsable string — it yields an Invalid Date whose `getTime()`
is `NaN` (`none` here), so the assignment happens and the `catch` block that
would restore the default 50 is dead code. -/
def ageScoreO (now : ℚ) (data : RepoAnalytics) : Option ℚ :=
  match data.repo.created_at with
  | some t => some (min 100 ((now - t) / 86400000 / 365 * 50))
  | none => none

/-- `freshnessScore = Math.max(0, 100 - daysSinceUpdate / 30 * 50)`; `NaN`
(`none`) on an unparsable `updated_at`, as for `ageScoreO`. -/
def freshnessScoreO (now : ℚ) (data : RepoAnalytics) : Option ℚ :=
  match data.repo.updated_at with
  | some t => some (max 0 (100 - (now - t) / 86400000 / 30 * 50))
  | none => none

/-- `stabilityScore = (ageScore + freshnessScore) / 2`, `NaN`-propagating. -/
def stabilityScoreO (now : ℚ) (data : RepoAnalytics) : Option ℚ :=
  match ageScoreO now data, freshnessScoreO now data with
  | some a, some f => some ((a + f) / 2)
  | _, _ => none

/-- `overallScore = Math.round(0.25·activity + 0.25·maintenance +
0.2·community + 0.15·documentation + 0.15·stability)`; `NaN` (`none`) when
the stability term is `NaN`. -/
def overallScoreO (now : ℚ) (data : RepoAnalytics) : Option ℤ :=
  match stabilityScoreO now data with
  | some st =>
    some (jround (activityScoreQ data * 0.25 + maintenanceScoreQ data * 0.25 +
      communityScoreQ data * 0.2 + documentationScoreQ data * 0.15 + st * 0.15))
  | none => none

/-- The grade/colour cascade on `overallScore`; every comparison with `NaN`
is false, so an absent score falls through to `('F', '#EF4444')`. -/
def gradeOf (o : Option ℤ) : String × String :=
  match o with
  | some s =>
    if 90 ≤ s then ("A+", "#10B981")
    else if 80 ≤ s then ("A", "#34D399")
    else if 70 ≤ s then ("B", "#FBBF24")
    else if 60 ≤ s then ("C", "#F59E0B")
    else if 50 ≤ s then ("D", "#F97316")
    else ("F", "#EF4444")
  | none => ("F", "#EF4444")

/-- The recommendation pushes, in source order; the stability test
`stabilityScore < 60` is false when the score is `NaN`. -/
def recommendationsL (now : ℚ) (data : RepoAnalytics) : List String :=
  (if activityScoreQ data < 50 then
    ["Increase commit frequency to show active development"] else []) ++
  (if maintenanceScoreQ data < 60 then
    ["Address open issues to improve maintenance score"] else []) ++
  (if communityScoreQ data < 50 then
    ["Encourage more contributors and engagement"] else []) ++
  (if documentationScoreQ data < 70 then
    ["Improve documentation with detailed README and proper license"] else []) ++
  (match stabilityScoreO now data with
   | some st =>
     if st < 60 then ["Update repository more regularly to maintain stability"] else []
   | none => [])

/-- The five rounded sub-scores of the returned `metrics` object. -/
structure HealthMetricsValues where
  activity : ℤ
  maintenance : ℤ
  community : ℤ
  documentation : ℤ
  stability : Option ℤ
deriving DecidableEq, Repr

/-- The `HealthMetrics` result record. -/
structure HealthMetrics where
  score : Option ℤ
  grade : String
  color : String
  metrics : HealthMetricsValues
  recommendations : List String
deriving DecidableEq, Repr

/-- The Health Scorer (`calculateHealthScore`).  `now` is the value of
`Date.now()` during the call. -/
def calculateHealthScore (now : ℚ) (data : RepoAnalytics) : HealthMetrics :=
  { score := overallScoreO now data
    grade := (gradeOf (overallScoreO now data)).1
    color := (gradeOf (overallScoreO now data)).2
    metrics :=
      { activity := jround (activityScoreQ data)
        maintenance := jround (maintenanceScoreQ data)
        community := jround (communityScoreQ data)
        documentation := jround (documentationScoreQ data)
        stability := (stabilityScoreO now data).map jround }
    recommendations := recommendationsL now data }

/-! ## URL validation (`src/backend/src/utils/validation.ts`)

`validateRepoUrl` matches the anchored regex
`^https:\/\/github\.com\/([^\/]+)\/([^\/]+?)(?:\/|\.git)?$` and throws
`'Invalid GitHub repository URL'` on failure.  Strings are modelled as
`List Char`; a thrown error is `none`.  The regex is compiled by hand:
group 1 is greedy (it cannot cross the following `/` anyway, so it is the
longest `/`-free prefix), group 2 is lazy, so the engine returns the
*shortest* non-empty `/`-free repo name whose remainder is matched by the
optional `(?:\/|\.git)?` suffix before the anchor. -/

def ghUrlHead : List Char := "https://github.com/".toList

def gitSuffixChars : List Char := ".git".toList

/-- Match `([^\/]+?)(?:\/|\.git)?$` against `s`, returning the lazy capture. -/
def parseRepoPart (s : List Char) : Option (List Char) :=
  if s.getLast? = some '/' then
    if s.dropLast ≠ [] ∧ ¬ s.dropLast.contains '/' then some s.dropLast else none
  else if s.contains '/' then none
  else if gitSuffixChars.isSuffixOf s ∧ 4 < s.length then
    some (s.take (s.length - 4))
  else if s ≠ [] then some s
  else none

/-- The URL validator: `some (owner, repo)` on a match, `none` for the thrown
`'Invalid GitHub repository URL'`. -/
def validateRepoUrl (url : List Char) : Option (List Char × List Char) :=
  if ghUrlHead.isPrefixOf url then
    let rest := url.drop ghUrlHead.length
    let owner := rest.takeWhile (fun c => c ≠ '/')
    match rest.dropWhile (fun c => c ≠ '/') with
    | sep :: s =>
      if owner = [] then none
      else if sep = '/' then
        match parseRepoPart s with
        | some repo => some (owner, repo)
        | none => none
      else none
    | [] => none
  else none

/-! ## Aggregation and error surfacing
(`githubService.getFullAnalytics`, routes in `src/backend/src/routes/github.ts`,
and the Express `errorHandler` middleware). -/

/-- A JS error value as the error handler sees it: `response` is
`error.response?.status` (an axios HTTP rejection carries a response; an
error built with `new Error(msg)` has none). -/
structure JsError where
  response : Option ℕ
  message : String
deriving DecidableEq, Repr

/-- A commit record; the aggregator only passes these through. -/
structure CommitRecord where
  sha : String
deriving DecidableEq, Repr

/-- The assembled full-analytics payload returned by the aggregator. -/
structure FullAnalytics where
  repo : GitHubRepo
  contributors : List GitHubContributor
  recentCommits : List CommitRecord
  issues : List (Option GitHubIssue)
  commitActivity : List (Option CommitActivityWeek)
  languages : List (String × ℚ)
deriving DecidableEq, Repr

/-- The `catch (error) { throw new Error(label + error) }` pattern shared by
every `GitHubService` method: the rethrown value is a plain `Error`, so the
original `error.response` is *not* carried over. -/
def wrapFetchError {α : Type} (label : String) :
    Except JsError α → Except JsError α
  | .ok v => .ok v
  | .error e => .error ⟨none, label ++ e.message⟩

/-- `getRepoInfo`, given the upstream axios outcome (cache omitted — it only
short-circuits a successful fetch). -/
def getRepoInfo (upstream : Except JsError GitHubRepo) :
    Except JsError GitHubRepo :=
  wrapFetchError "Failed to fetch repository: " upstream

def getContributors (upstream : Except JsError (List GitHubContributor)) :
    Except JsError (List GitHubContributor) :=
  wrapFetchError "Failed to fetch contributors: " upstream

def getCommits (upstream : Except JsError (List CommitRecord)) :
    Except JsError (List CommitRecord) :=
  wrapFetchError "Failed to fetch commits: " upstream

def getIssues (upstream : Except JsError (List (Option GitHubIssue))) :
    Except JsError (List (Option GitHubIssue)) :=
  wrapFetchError "Failed to fetch issues: " upstream

def getCommitActivity
    (upstream : Except JsError (List (Option CommitActivityWeek))) :
    Except JsError (List (Option CommitActivityWeek)) :=
  wrapFetchError "Failed to fetch commit activity: " upstream

def getLanguages (upstream : Except JsError (List (String × ℚ))) :
    Except JsError (List (String × ℚ)) :=
  wrapFetchError "Failed to fetch languages: " upstream

/-- The outer wrap of `getFullAnalytics`'s own `catch`. -/
def wrapFullAnalyticsError (e : JsError) : JsError :=
  ⟨none, "Failed to fetch full analytics: " ++ e.message⟩

/-- `getFullAnalytics`: `Promise.all` over the six fetches — all-or-nothing,
a rejection of any fetch rejects the whole aggregation (taken here in
positional order; which rejection wins a race does not matter to any claim),
and the surrounding `catch` wraps the rejection once more. -/
def getFullAnalytics (repoInfo : Except JsError GitHubRepo)
    (contributors : Except JsError (List GitHubContributor))
    (commits : Except JsError (List CommitRecord))
    (issues : Except JsError (List (Option GitHubIssue)))
    (commitActivity : Except JsError (List (Option CommitActivityWeek)))
    (languages : Except JsError (List (String × ℚ))) :
    Except JsError FullAnalytics :=
  match getRepoInfo repoInfo with
  | .error e => .error (wrapFullAnalyticsError e)
  | .ok r =>
    match getContributors contributors with
    | .error e => .error (wrapFullAnalyticsError e)
    | .ok cs =>
      match getCommits commits with
      | .error e => .error (wrapFullAnalyticsError e)
      | .ok cm =>
        match getIssues issues with
        | .error e => .error (wrapFullAnalyticsError e)
        | .ok is =>
          match getCommitActivity commitActivity with
          | .error e => .error (wrapFullAnalyticsError e)
          | .ok ca =>
            match getLanguages languages with
            | .error e => .error (wrapFullAnalyticsError e)
            | .ok lg =>
              .ok { repo := r, contributors := cs, recentCommits := cm,
                    issues := is, commitActivity := ca, languages := lg }

/-- The Express `errorHandler` middleware, as (status code, error string):
Zod validation errors get 400; otherwise the branches inspect
`error.response?.status` for 404 and 403; everything else degrades to a
generic 500. -/
def errorHandler (isZodError : Bool) (e : JsError) : ℕ × String :=
  if isZodError then (400, "Validation error")
  else
    match e.response with
    | some 404 => (404, "Repository not found")
    | some 403 => (403, "GitHub API rate limit exceeded")
    | _ => (500, "Internal server error")

/-! ## Concrete instances used in counterexamples and witnesses -/

/-- A snapshot whose `created_at` is an unparsable date string
(so `new Date(created_at).getTime()` is `NaN`, modelled `none`). -/
def invalidDateSnap : RepoAnalytics :=
  { repo := { description := some "d", license := some "MIT",
              open_issues_count := 1, stargazers_count := 5, forks_count := 0,
              watchers_count := 0, created_at := none, updated_at := some 0 }
    contributors := some []
    issues := some []
    commitActivity := some []
    languages := [] }

/-- A minimal well-formed snapshot (both timestamps = epoch 0). -/
def epochSnap : RepoAnalytics :=
  { repo := { description := none, license := none, open_issues_count := 0,
              stargazers_count := 0, forks_count := 0, watchers_count := 0,
              created_at := some 0, updated_at := some 0 }
    contributors := none
    issues := none
    commitActivity := none
    languages := [] }

/-- A snapshot for the maintenance witness: 3 reported open issues, two
fetched records closed, one merged. -/
def maintenanceWitnessSnap : RepoAnalytics :=
  { repo := { description := none, license := none, open_issues_count := 3,
              stargazers_count := 0, forks_count := 0, watchers_count := 0,
              created_at := some 0, updated_at := some 0 }
    contributors := none
    issues := some [some ⟨.vstr "closed", []⟩, some ⟨.vstr "merged", []⟩,
                    some ⟨.vstr "closed", []⟩]
    commitActivity := none
    languages := [] }

/-- An issue list containing a single record with `state: 'merged'`. -/
def mergedIssueList : List (Option GitHubIssue) := [some ⟨.vstr "merged", []⟩]

/-- Thirteen well-formed commit-activity entries. -/
def thirteenWeeks : List (Option CommitActivityWeek) :=
  [some ⟨some 0, some 1⟩, some ⟨some 1, some 1⟩, some ⟨some 2, some 1⟩,
   some ⟨some 3, some 1⟩, some ⟨some 4, some 1⟩, some ⟨some 5, some 1⟩,
   some ⟨some 6, some 1⟩, some ⟨some 7, some 1⟩, some ⟨some 8, some 1⟩,
   some ⟨some 9, some 1⟩, some ⟨some 10, some 1⟩, some ⟨some 11, some 1⟩,
   some ⟨some 12, some 1⟩]

/-- Six languages with one byte each. -/
def sixEqualLanguages : List (String × ℚ) :=
  [("a", 1), ("b", 1), ("c", 1), ("d", 1), ("e", 1), ("f", 1)]

/-- Modelled from the spec's words (for the refinement comparison of claim
C6): maintenance = closed/(open+closed)·100, defaulting to 50 when the
denominator open+closed is 0. -/
def maintenanceScoreSpec (openIssueCount closedIssueCount : ℚ) : ℚ :=
  if openIssueCount + closedIssueCount = 0 then 50
  else closedIssueCount / (openIssueCount + closedIssueCount) * 100

/-! ## Helper lemmas -/

theorem jround_bounds {q : ℚ} (h0 : 0 ≤ q) (h100 : q ≤ 100) :
    0 ≤ jround q ∧ jround q ≤ 100 := by
  unfold jround
  constructor
  · exact Int.floor_nonneg.2 (by linarith)
  · have : (⌊q + 1 / 2⌋ : ℚ) ≤ q + 1 / 2 := Int.floor_le _
    have h2 : ⌊q + 1 / 2⌋ ≤ ⌊(201 : ℚ) / 2⌋ := Int.floor_le_floor (by linarith)
    have h3 : ⌊(201 : ℚ) / 2⌋ = 100 := by norm_num [Int.floor_eq_iff]
    omega

theorem toFixed1_close (q : ℚ) : |toFixed1 q - q| ≤ 1 / 20 := by
  unfold toFixed1
  have h1 : (⌊q * 10 + 1 / 2⌋ : ℚ) ≤ q * 10 + 1 / 2 := Int.floor_le _
  have h2 : q * 10 + 1 / 2 - 1 < ⌊q * 10 + 1 / 2⌋ := Int.sub_one_lt_floor _
  rw [abs_le]
  constructor <;> [linarith; linarith]

theorem length_filter_add_length_filter {α : Type} (l : List α) (p q : α → Bool)
    (hdisj : ∀ a, ¬(p a ∧ q a)) :
    (l.filter p).length + (l.filter q).length =
      (l.filter (fun a => p a || q a)).length := by
  induction l with
  | nil => simp
  | cons x xs ih =>
    by_cases hp : p x <;> by_cases hq : q x <;>
      simp_all [List.filter_cons] <;> omega

theorem length_filter_le_of_imp {α : Type} (l : List α) (p r : α → Bool)
    (h : ∀ a, p a → r a) : (l.filter p).length ≤ (l.filter r).length := by
  induction l with
  | nil => simp
  | cons x xs ih =>
    by_cases hp : p x
    · simp [List.filter_cons, hp, h x hp]; omega
    · by_cases hr : r x <;> simp [List.filter_cons, hp, hr] <;> omega

theorem labelWeeks_length (i : ℕ) (l : List (ℚ × ℚ)) :
    (labelWeeks i l).length = l.length := by
  induction l generalizing i with
  | nil => rfl
  | cons w ws ih => simp [labelWeeks, ih]

theorem labelWeeks_map_week (i : ℕ) (l : List (ℚ × ℚ)) :
    (labelWeeks i l).map (fun e => e.week) =
      (List.range l.length).map (fun j => "Week " ++ toString (i + j + 1)) := by
  induction l generalizing i with
  | nil => rfl
  | cons w ws ih =>
    rcases w with ⟨wk, t⟩
    simp only [labelWeeks, List.map_cons, List.length_cons,
      List.range_succ_eq_map, ih, List.map_map]
    congr 1
    apply List.map_congr_left
    intro a _
    simp only [Function.comp_apply]
    congr 2
    omega

theorem labelWeeks_map_commits (i : ℕ) (l : List (ℚ × ℚ)) :
    (labelWeeks i l).map (fun e => e.commits) = l.map (fun p => max 0 p.2) := by
  induction l generalizing i with
  | nil => rfl
  | cons w ws ih =>
    rcases w with ⟨wk, t⟩
    simp [labelWeeks, ih]

theorem labelWeeks_commits_nonneg (i : ℕ) (l : List (ℚ × ℚ)) :
    ∀ e ∈ labelWeeks i l, 0 ≤ e.commits := by
  induction l generalizing i with
  | nil => intro e he; exact absurd he (List.not_mem_nil e)
  | cons w ws ih =>
    rcases w with ⟨wk, t⟩
    intro e he
    rcases List.mem_cons.1 he with h | h
    · subst h; exact le_max_left 0 t
    · exact ih (i + 1) e h

theorem recentCommitsQ_nonneg (data : RepoAnalytics)
    (hca : ∀ l, data.commitActivity = some l → ∀ o ∈ l, ∀ w, o = some w →
      ∀ t, w.total = some t → 0 ≤ t) :
    0 ≤ recentCommitsQ data := by
  unfold recentCommitsQ
  cases h : data.commitActivity with
  | none => exact le_refl 0
  | some l =>
    by_cases he : l.isEmpty
    · simp [he]
    · simp only [he, if_false]
      apply List.sum_nonneg
      intro x hx
      rw [List.mem_filterMap] at hx
      obtain ⟨o, ho, hfo⟩ := hx
      have hol : o ∈ l := List.drop_subset _ _ ho
      match o, hfo with
      | some w, hfo => exact hca l h (some w) hol w rfl x hfo

theorem activityScoreQ_bounds (data : RepoAnalytics)
    (h : 0 ≤ recentCommitsQ data) :
    0 ≤ activityScoreQ data ∧ activityScoreQ data ≤ 100 := by
  unfold activityScoreQ
  constructor
  · apply le_min (by norm_num)
    positivity
  · exact min_le_left _ _

theorem maintenanceScoreQ_bounds (data : RepoAnalytics)
    (hopen : 0 ≤ data.repo.open_issues_count) :
    0 ≤ maintenanceScoreQ data ∧ maintenanceScoreQ data ≤ 100 := by
  unfold maintenanceScoreQ
  simp only [jsOrZero_eq]
  have hc0 : (0 : ℚ) ≤ (closedIssuesN data : ℚ) := Nat.cast_nonneg _
  by_cases hlt : 0 < data.repo.open_issues_count + (closedIssuesN data : ℚ)
  · rw [if_pos hlt]
    constructor
    · positivity
    · have h1 : (closedIssuesN data : ℚ) /
          (data.repo.open_issues_count + (closedIssuesN data : ℚ)) ≤ 1 :=
        (div_le_one hlt).2 (by linarith)
      nlinarith
  · rw [if_neg hlt]
    norm_num

theorem communityScoreQ_bounds (data : RepoAnalytics)
    (hstars : 0 ≤ data.repo.stargazers_count) :
    0 ≤ communityScoreQ data ∧ communityScoreQ data ≤ 100 := by
  unfold communityScoreQ
  simp only [jsOrZero_eq]
  have h1 : (0 : ℚ) ≤ min 100 ((contributorCountN data : ℚ) / 20 * 100) :=
    le_min (by norm_num) (by positivity)
  have h2 : (0 : ℚ) ≤ min 100 (data.repo.stargazers_count / 1000 * 100) :=
    le_min (by norm_num) (by positivity)
  have h3 : min (100 : ℚ) ((contributorCountN data : ℚ) / 20 * 100) ≤ 100 :=
    min_le_left _ _
  have h4 : min (100 : ℚ) (data.repo.stargazers_count / 1000 * 100) ≤ 100 :=
    min_le_left _ _
  constructor <;> linarith

theorem documentationScoreQ_bounds (data : RepoAnalytics) :
    0 ≤ documentationScoreQ data ∧ documentationScoreQ data ≤ 100 := by
  unfold documentationScoreQ
  split <;> split <;> norm_num

theorem stabilityScoreO_bounds (now : ℚ) (data : RepoAnalytics)
    (hcreated : ∃ tc, data.repo.created_at = some tc ∧ tc ≤ now)
    (hupdated : ∃ tu, data.repo.updated_at = some tu ∧ tu ≤ now) :
    ∃ s, stabilityScoreO now data = some s ∧ 0 ≤ s ∧ s ≤ 100 := by
  obtain ⟨tc, hc, hcle⟩ := hcreated
  obtain ⟨tu, hu, hule⟩ := hupdated
  have hage : ageScoreO now data =
      some (min 100 ((now - tc) / 86400000 / 365 * 50)) := by
    unfold ageScoreO; rw [hc]
  have hfresh : freshnessScoreO now data =
      some (max 0 (100 - (now - tu) / 86400000 / 30 * 50)) := by
    unfold freshnessScoreO; rw [hu]
  have ha0 : (0 : ℚ) ≤ min 100 ((now - tc) / 86400000 / 365 * 50) := by
    apply le_min (by norm_num)
    have : (0 : ℚ) ≤ now - tc := by linarith
    positivity
  have ha1 : min (100 : ℚ) ((now - tc) / 86400000 / 365 * 50) ≤ 100 :=
    min_le_left _ _
  have hf0 : (0 : ℚ) ≤ max 0 (100 - (now - tu) / 86400000 / 30 * 50) :=
    le_max_left _ _
  have hf1 : max (0 : ℚ) (100 - (now - tu) / 86400000 / 30 * 50) ≤ 100 := by
    apply max_le (by norm_num)
    have h : (0 : ℚ) ≤ (now - tu) / 86400000 / 30 * 50 := by
      have : (0 : ℚ) ≤ now - tu := by linarith
      positivity
    linarith
  refine ⟨(min 100 ((now - tc) / 86400000 / 365 * 50) +
      max 0 (100 - (now - tu) / 86400000 / 30 * 50)) / 2, ?_, ?_, ?_⟩
  · unfold stabilityScoreO
    rw [hage, hfresh]
  · linarith
  · linarith

theorem sum_filter_pos_of_nonneg (l : List (String × ℚ))
    (hnn : ∀ p ∈ l, 0 ≤ p.2) :
    ((l.filter (fun p => decide (0 < p.2))).map (fun p => p.2)).sum =
      (l.map (fun p => p.2)).sum := by
  induction l with
  | nil => rfl
  | cons x xs ih =>
    have hx : 0 ≤ x.2 := hnn x (List.mem_cons_self x xs)
    have ihh := ih (fun p hp => hnn p (List.mem_cons_of_mem x hp))
    by_cases h : 0 < x.2
    · simp [List.filter_cons, h, ihh]
    · have hx0 : x.2 = 0 := le_antisymm (not_lt.1 h) hx
      simp [List.filter_cons, h, ihh, hx0]

theorem sum_map_toFixed1_close (l : List ℚ) :
    |(l.map toFixed1).sum - l.sum| ≤ (l.length : ℚ) / 20 := by
  induction l with
  | nil => simp
  | cons x xs ih =>
    have hx := toFixed1_close x
    calc |((x :: xs).map toFixed1).sum - (x :: xs).sum|
        = |(toFixed1 x - x) + ((xs.map toFixed1).sum - xs.sum)| := by
          simp [List.sum_cons]; ring_nf
      _ ≤ |toFixed1 x - x| + |(xs.map toFixed1).sum - xs.sum| := abs_add _ _
      _ ≤ 1 / 20 + (xs.length : ℚ) / 20 := add_le_add hx ih
      _ = ((xs.length : ℚ) + 1) / 20 := by ring
      _ = (((x :: xs).length : ℕ) : ℚ) / 20 := by
          simp only [List.length_cons]
          push_cast
          ring

theorem sum_map_snd_mul_const (l : List (String × ℚ)) (c : ℚ) :
    (l.map (fun p => p.2 * c)).sum = (l.map (fun p => p.2)).sum * c := by
  induction l with
  | nil => simp
  | cons x xs ih => simp [ih]; ring

theorem contains_eq_false_iff (l : List Char) (a : Char) :
    l.contains a = false ↔ a ∉ l := by
  rw [← Bool.not_eq_true, List.contains, List.elem_iff]

theorem contains_append_char (l₁ l₂ : List Char) (a : Char) :
    (l₁ ++ l₂).contains a = (l₁.contains a || l₂.contains a) := by
  by_cases h1 : a ∈ l₁ <;> by_cases h2 : a ∈ l₂ <;>
    simp [List.contains, List.elem_iff, List.mem_append, h1, h2]

theorem getLast_eq_slash {s : List Char} (h1 : s.getLast? = some '/') :
    s = s.dropLast ++ ['/'] := by
  have hsne : s ≠ [] := by
    intro he; rw [he] at h1; exact Option.noConfusion h1
  have hlast : s.getLast hsne = '/' := by
    have he := List.getLast?_eq_getLast s hsne
    rw [he] at h1
    injection h1 with h1
  have hd := List.dropLast_append_getLast hsne
  rw [hlast] at hd
  exact hd.symm

theorem parseRepoPart_some {s p : List Char} (h : parseRepoPart s = some p) :
    p ≠ [] ∧ p.contains '/' = false ∧
      (s = p ++ ['/'] ∨ s = p ++ gitSuffixChars ∨ s = p) := by
  unfold parseRepoPart at h
  split at h
  case isTrue h1 =>
    split at h
    case isTrue h2 =>
      injection h with h
      subst h
      exact ⟨h2.1, by simpa using h2.2, Or.inl (getLast_eq_slash h1)⟩
    case isFalse h2 => exact Option.noConfusion h
  case isFalse h1 =>
    split at h
    case isTrue h2 => exact Option.noConfusion h
    case isFalse h2 =>
      have h2f : s.contains '/' = false := by simpa using h2
      split at h
      case isTrue h3 =>
        obtain ⟨hsuf, hlen⟩ := h3
        obtain ⟨t, ht⟩ := List.isSuffixOf_iff_suffix.1 hsuf
        have hteq : s.take (s.length - 4) = t := by
          rw [← ht, List.length_append]
          have he4 : t.length + gitSuffixChars.length - 4 = t.length := by
            have h4 : gitSuffixChars.length = 4 := rfl
            omega
          rw [he4, List.take_left]
        rw [hteq] at h
        injection h with h
        subst h
        have htlen : 4 < t.length + 4 := by
          have hc := congrArg List.length ht
          rw [List.length_append] at hc
          have h4 : gitSuffixChars.length = 4 := rfl
          omega
        refine ⟨?_, ?_, Or.inr (Or.inl ht.symm)⟩
        · intro he; rw [he] at htlen; simp at htlen
        · rw [← ht, contains_append_char] at h2f
          exact (Bool.or_eq_false_iff.1 h2f).1
      case isFalse h3 =>
        split at h
        case isTrue h4 =>
          injection h with h
          subst h
          exact ⟨h4, h2f, Or.inr (Or.inr rfl)⟩
        case isFalse h4 => exact Option.noConfusion h

theorem parseRepoPart_isSome {rp t : List Char} (hrp : rp ≠ [])
    (hc : rp.contains '/' = false)
    (ht : t = [] ∨ t = ['/'] ∨ t = gitSuffixChars) :
    (parseRepoPart (rp ++ t)).isSome := by
  have hmem : '/' ∉ rp := (contains_eq_false_iff rp '/').1 hc
  have hcont : ¬ (rp.contains '/' = true) := by rw [hc]; decide
  rcases ht with rfl | rfl | rfl
  · unfold parseRepoPart
    rw [List.append_nil]
    have h1 : ¬ rp.getLast? = some '/' := by
      intro h
      exact hmem (List.mem_of_mem_getLast? (by rw [h]; rfl))
    rw [if_neg h1, if_neg hcont]
    split
    · simp
    · simp [hrp]
  · unfold parseRepoPart
    rw [List.getLast?_concat, if_pos rfl, List.dropLast_concat,
      if_pos ⟨hrp, hcont⟩]
    simp
  · unfold parseRepoPart
    have h1 : ¬ (rp ++ gitSuffixChars).getLast? = some '/' := by
      rw [List.getLast?_append]
      show ¬ (some 't' : Option Char) = some '/'
      decide
    have h2 : ¬ ((rp ++ gitSuffixChars).contains '/' = true) := by
      rw [contains_append_char, hc]
      decide
    have h3 : gitSuffixChars.isSuffixOf (rp ++ gitSuffixChars) = true :=
      List.isSuffixOf_iff_suffix.2 ⟨rp, rfl⟩
    have h4 : 4 < (rp ++ gitSuffixChars).length := by
      rw [List.length_append]
      have h5 : gitSuffixChars.length = 4 := rfl
      have h6 : 0 < rp.length := List.length_pos.2 hrp
      omega
    rw [if_neg h1, if_neg h2, if_pos ⟨h3, h4⟩]
    simp

theorem takeWhile_append_middle (p : Char → Bool) (l₁ : List Char) (a : Char)
    (l₂ : List Char) (h1 : ∀ x ∈ l₁, p x = true) (ha : p a = false) :
    (l₁ ++ a :: l₂).takeWhile p = l₁ ∧ (l₁ ++ a :: l₂).dropWhile p = a :: l₂ := by
  induction l₁ with
  | nil => simp [List.takeWhile_cons, List.dropWhile_cons, ha]
  | cons x xs ih =>
    have hx := h1 x (List.mem_cons_self x xs)
    have ih2 := ih (fun y hy => h1 y (List.mem_cons_of_mem x hy))
    simp [List.takeWhile_cons, List.dropWhile_cons, hx, ih2.1, ih2.2]

theorem validateRepoUrl_eq_some {url ow rp : List Char}
    (h : validateRepoUrl url = some (ow, rp)) :
    ow ≠ [] ∧ rp ≠ [] ∧ ow.contains '/' = false ∧ rp.contains '/' = false ∧
      ∃ t, (t = [] ∨ t = ['/'] ∨ t = gitSuffixChars) ∧
        url = ghUrlHead ++ ow ++ '/' :: (rp ++ t) := by
  unfold validateRepoUrl at h
  split at h
  case isFalse => exact Option.noConfusion h
  case isTrue hp =>
    obtain ⟨tl, htl⟩ := List.isPrefixOf_iff_prefix.1 hp
    have hdrop : url.drop ghUrlHead.length = tl := by
      rw [← htl, List.drop_left]
    rw [hdrop] at h
    dsimp only [] at h
    cases hd : tl.dropWhile (fun c => c ≠ '/') with
    | nil => rw [hd] at h; exact Option.noConfusion h
    | cons sep s =>
      rw [hd] at h
      simp only [] at h
      split at h
      case isTrue => exact Option.noConfusion h
      case isFalse howner =>
        split at h
        case isFalse => exact Option.noConfusion h
        case isTrue hsep =>
          subst hsep
          cases hps : parseRepoPart s with
          | none => rw [hps] at h; exact Option.noConfusion h
          | some repo =>
            rw [hps] at h
            injection h with h
            have h1 : tl.takeWhile (fun c => c ≠ '/') = ow :=
              congrArg Prod.fst h
            have h2 : repo = rp := congrArg Prod.snd h
            subst h2
            obtain ⟨hrpne, hrpc, hsplit⟩ := parseRepoPart_some hps
            have howc : ow.contains '/' = false := by
              apply (contains_eq_false_iff ow '/').2
              intro hmem
              rw [← h1] at hmem
              have := List.mem_takeWhile_imp hmem
              simp at this
            have htl2 : ow ++ ('/' :: s) = tl := by
              rw [← h1, ← hd]
              exact List.takeWhile_append_dropWhile _ tl
            have hone : ow ≠ [] := by
              intro he
              rw [he] at h1
              exact howner (h1 ▸ rfl)
            refine ⟨hone, hrpne, howc, hrpc, ?_⟩
            rcases hsplit with hs | hs | hs
            · exact ⟨['/'], Or.inr (Or.inl rfl), by
                rw [← htl, ← htl2, hs]; simp [List.append_assoc]⟩
            · exact ⟨gitSuffixChars, Or.inr (Or.inr rfl), by
                rw [← htl, ← htl2, hs]; simp [List.append_assoc]⟩
            · exact ⟨[], Or.inl rfl, by
                rw [← htl, ← htl2, hs]; simp [List.append_assoc]⟩

theorem validateRepoUrl_isSome_of {ow rp t : List Char}
    (ht : t = [] ∨ t = ['/'] ∨ t = gitSuffixChars)
    (how : ow ≠ []) (hrp : rp ≠ [])
    (hcow : ow.contains '/' = false) (hcrp : rp.contains '/' = false) :
    (validateRepoUrl (ghUrlHead ++ ow ++ '/' :: (rp ++ t))).isSome := by
  have howmem : ∀ x ∈ ow, (fun c => decide (c ≠ '/')) x = true := by
    intro x hx
    have hxne : x ≠ '/' :=
      fun he => (contains_eq_false_iff ow '/').1 hcow (he ▸ hx)
    simp [hxne]
  have hp : ghUrlHead.isPrefixOf (ghUrlHead ++ ow ++ '/' :: (rp ++ t)) := by
    apply List.isPrefixOf_iff_prefix.2
    exact ⟨ow ++ '/' :: (rp ++ t), by simp [List.append_assoc]⟩
  have hdrop : (ghUrlHead ++ ow ++ '/' :: (rp ++ t)).drop ghUrlHead.length =
      ow ++ '/' :: (rp ++ t) := by
    rw [List.append_assoc, List.drop_left]
  have hmid := takeWhile_append_middle (fun c => decide (c ≠ '/')) ow '/'
    (rp ++ t) howmem (by simp)
  unfold validateRepoUrl
  rw [if_pos hp]
  dsimp only []
  rw [hdrop, hmid.1, hmid.2]
  dsimp only []
  rw [if_neg how, if_pos rfl]
  cases hps : parseRepoPart (rp ++ t) with
  | none =>
    have hsome := parseRepoPart_isSome hrp hcrp ht
    rw [hps] at hsome
    exact absurd hsome (by simp)
  | some repo => simp

/-! ## Claim theorems -/

/-- Claim C5 (code_bug): the spec states that when parsing of either
timestamp fails, age and freshness both default to 50 and stability equals
50.  The code's `catch` block that would do this is dead (`new Date` does
not throw): on a snapshot whose `created_at` does not parse, `ageScore`
becomes `Math.min(100, NaN) = NaN`, so the stability sub-score and the
overall score are `NaN` (`none`), not 50. -/
theorem calculateHealthScore_nan_on_invalid_date :
    (calculateHealthScore 1700000000000 invalidDateSnap).metrics.stability = none ∧
    (calculateHealthScore 1700000000000 invalidDateSnap).score = none ∧
    (calculateHealthScore 1700000000000 invalidDateSnap).metrics.stability ≠ some 50 := by
  refine ⟨?_, ?_, ?_⟩ <;>
    simp [calculateHealthScore, overallScoreO, stabilityScoreO, ageScoreO,
      freshnessScoreO, invalidDateSnap]

/-- Claim C6 (confirmed): the maintenance sub-score equals
closed/(open+closed)·100 with open the repository's reported
`open_issues_count` and closed the number of fetched records with state
exactly `'closed'`, defaulting to 50 when the denominator is 0 (stated under
the data-model validity assumption that the reported open-issue count is
non-negative; `closedIssuesN` is by definition the count of fetched records
with `i && i.state === 'closed'`). -/
theorem maintenanceScore_matches_spec (data : RepoAnalytics)
    (h : 0 ≤ data.repo.open_issues_count) :
    maintenanceScoreQ data =
      maintenanceScoreSpec data.repo.open_issues_count (closedIssuesN data) := by
  unfold maintenanceScoreQ maintenanceScoreSpec
  simp only [jsOrZero_eq]
  have hc0 : (0 : ℚ) ≤ (closedIssuesN data : ℚ) := Nat.cast_nonneg _
  rcases eq_or_lt_of_le (add_nonneg h hc0) with heq | hlt
  · rw [if_neg (by rw [← heq]; exact lt_irrefl 0), if_pos heq.symm]
    norm_num
  · rw [if_pos hlt, if_neg (ne_of_gt hlt)]

/-- Witness for claim C6 at a concrete snapshot (3 reported open issues, 2
fetched closed records, 1 merged record). -/
theorem maintenanceScore_matches_spec_witness :
    (0 : ℚ) ≤ maintenanceWitnessSnap.repo.open_issues_count ∧
    maintenanceScoreQ maintenanceWitnessSnap =
      maintenanceScoreSpec maintenanceWitnessSnap.repo.open_issues_count
        (closedIssuesN maintenanceWitnessSnap) :=
  ⟨by norm_num [maintenanceWitnessSnap],
   maintenanceScore_matches_spec maintenanceWitnessSnap
     (by norm_num [maintenanceWitnessSnap])⟩

/-- Claim C9 (code_bug): when the upstream repository fetch rejects with an
HTTP 404, every `GitHubService` method rethrows a *plain* `Error` (losing
`error.response`), `getFullAnalytics` wraps it once more, and the Express
`errorHandler` therefore answers the generic `(500, 'Internal server
error')` instead of the specific `(404, 'Repository not found')`.  The
all-or-nothing half of the claim does hold: the aggregation returns an
error, never a partial snapshot. -/
theorem getFullAnalytics_404_surfaces_generic_500 :
    getFullAnalytics
        (Except.error ⟨some 404, "Request failed with status code 404"⟩)
        (Except.ok []) (Except.ok []) (Except.ok []) (Except.ok [])
        (Except.ok []) =
      Except.error ⟨none, "Failed to fetch full analytics: Failed to fetch repository: Request failed with status code 404"⟩ ∧
    errorHandler false
        ⟨none, "Failed to fetch full analytics: Failed to fetch repository: Request failed with status code 404"⟩ =
      (500, "Internal server error") ∧
    errorHandler false
        ⟨none, "Failed to fetch full analytics: Failed to fetch repository: Request failed with status code 404"⟩ ≠
      (404, "Repository not found") := by
  refine ⟨rfl, rfl, ?_⟩
  decide

/-- Claim C7 (confirmed): the recommendations list is exactly the fixed
five-entry advisory table filtered by the per-sub-score threshold tests
(Activity<50, Maintenance<60, Community<50, Documentation<70, Stability<60,
the last false when stability is `NaN`), each threshold independent, in the
fixed sub-score order; in particular it is empty iff every sub-score meets
its threshold.  The thresholds are tested on the unrounded sub-scores. -/
theorem recommendations_characterization (now : ℚ) (data : RepoAnalytics) :
    (calculateHealthScore now data).recommendations =
      (([(decide (activityScoreQ data < 50),
          "Increase commit frequency to show active development"),
         (decide (maintenanceScoreQ data < 60),
          "Address open issues to improve maintenance score"),
         (decide (communityScoreQ data < 50),
          "Encourage more contributors and engagement"),
         (decide (documentationScoreQ data < 70),
          "Improve documentation with detailed README and proper license"),
         ((stabilityScoreO now data).elim false (fun st => decide (st < 60)),
          "Update repository more regularly to maintain stability")].filter
            (fun p => p.1)).map (fun p => p.2)) := by
  show recommendationsL now data = _
  unfold recommendationsL
  rcases hst : stabilityScoreO now data with _ | st <;>
    by_cases h1 : activityScoreQ data < 50 <;>
    by_cases h2 : maintenanceScoreQ data < 60 <;>
    by_cases h3 : communityScoreQ data < 50 <;>
    by_cases h4 : documentationScoreQ data < 70 <;>
    simp [h1, h2, h3, h4, List.filter, apply_ite] <;>
    by_cases h5 : st < 60 <;> simp [h5]

/-- Claim C8 (counterexample): the Health Scorer is *not* a function of the
snapshot alone — it reads `Date.now()`, so two calls on the same immutable
snapshot at different clock instants (here epoch 0 and one year later)
return different outputs (the stability sub-score moves from 50 to 25). -/
theorem calculateHealthScore_clock_dependent :
    calculateHealthScore 0 epochSnap ≠ calculateHealthScore 31536000000 epochSnap := by
  intro h
  have h2 := congrArg (fun m => m.metrics.stability) h
  simp only [calculateHealthScore, stabilityScoreO, ageScoreO, freshnessScoreO,
    epochSnap, Option.map_some] at h2
  norm_num [min_def, max_def] at h2
  norm_num [jround] at h2

/-- Claim C8 (amended): the Derived-Metrics Engine functions are
deterministic given the snapshot, and the Health Scorer is deterministic
given the snapshot *and* the `Date.now()` reading of the call: running all
of them twice on the same inputs yields identical outputs. -/
theorem derivedMetrics_two_run_deterministic (data : RepoAnalytics) (now : ℚ) :
    (prepareLanguageData data.languages,
     prepareCommitActivityData data.commitActivity,
     getIssueStats data.issues, getTopLabels data.issues,
     calculateHealthScore now data) =
    (prepareLanguageData data.languages,
     prepareCommitActivityData data.commitActivity,
     getIssueStats data.issues, getTopLabels data.issues,
     calculateHealthScore now data) := rfl

/-- Claim C3 (counterexample): for the *inline* single-view issue-statistics
computation, an issue list containing a single record with `state: 'merged'`
gives open = closed = 0 but total = 1 (its `total` counts every record with
a truthy state), so `open + closed == total` fails and the merged record is
not excluded from `total`. -/
theorem issueStatsInline_merged_breaks_invariant :
    (issueStatsInline (some mergedIssueList)).openCnt +
      (issueStatsInline (some mergedIssueList)).closedCnt ≠
    (issueStatsInline (some mergedIssueList)).total := by decide

/-- Claim C3 (amended): for the standalone `getIssueStats`,
`open + closed = total`, `total ≤` the number of records, and `total` counts
exactly the records whose state is the string `'open'` or `'closed'`
(others, e.g. `'merged'`, are excluded from all three counts).  For the
inline single-view computation, open and closed are counted the same way but
`total` counts every record with a truthy state, so only
`open + closed ≤ total ≤` the number of records holds there. -/
theorem issueStats_characterization :
    (∀ issues, (getIssueStats issues).openCnt + (getIssueStats issues).closedCnt
        = (getIssueStats issues).total) ∧
    (∀ l, (getIssueStats (some l)).total ≤ l.length) ∧
    (∀ l, (getIssueStats (some l)).total =
        (l.filter (issueTruthyAnd
          (fun i => i.state.eqStr "open" || i.state.eqStr "closed"))).length) ∧
    (∀ l, (issueStatsInline (some l)).openCnt + (issueStatsInline (some l)).closedCnt
        ≤ (issueStatsInline (some l)).total) ∧
    (∀ l, (issueStatsInline (some l)).total ≤ l.length) := by
  have hdisj : ∀ o : Option GitHubIssue,
      ¬(issueTruthyAnd (fun i => i.state.eqStr "open") o = true ∧
        issueTruthyAnd (fun i => i.state.eqStr "closed") o = true) := by
    rintro (_ | i) ⟨h1, h2⟩
    · exact Bool.noConfusion h1
    · rcases i with ⟨st, lbs⟩
      rcases st with s | b <;> simp_all [issueTruthyAnd, JsVal.eqStr]
  refine ⟨?_, ?_, ?_, ?_, ?_⟩
  · intro issues; cases issues <;> rfl
  · intro l
    show _ + _ ≤ _
    calc _ = _ := length_filter_add_length_filter _ _ _ (fun o => hdisj o)
    _ ≤ (l.filter (issueTruthyAnd (fun i => i.state.isString))).length :=
        List.length_filter_le _ _
    _ ≤ l.length := List.length_filter_le _ _
  · intro l
    show _ + _ = _
    rw [length_filter_add_length_filter _ _ _ (fun o => hdisj o),
      List.filter_filter]
    congr 1
    apply List.filter_congr
    rintro (_ | ⟨s | b, lbs⟩) _ <;>
      simp [issueTruthyAnd, JsVal.eqStr, JsVal.isString]
  · intro l
    simp only [issueStatsInline]
    rw [length_filter_add_length_filter _ _ _ (fun o => hdisj o)]
    apply length_filter_le_of_imp
    rintro (_ | ⟨s | b, lbs⟩) h <;>
      simp_all [issueTruthyAnd, JsVal.eqStr, JsVal.isTruthy]
    rcases h with h | h <;> simp [h]
  · intro l
    exact List.length_filter_le _ _

/-- Claim C4 (counterexample): with 13 well-formed commit-activity entries,
the 12 returned entries are labelled "Week 2".."Week 13", not
"Week 1".."Week 12": the `Week ${index+1}` labels are assigned by position
in the filtered list *before* `.slice(-12)` is applied. -/
theorem prepareCommitActivityData_shifted_labels :
    (prepareCommitActivityData (some thirteenWeeks)).map (fun e => e.week) ≠
      (List.range (prepareCommitActivityData (some thirteenWeeks)).length).map
        (fun j => "Week " ++ toString (j + 1)) := by decide

/-- Claim C4 (amended): the commit-activity window filters out malformed
entries, returns at most 12 entries — the last `min F 12` of the `F`
well-formed entries in order, with totals clamped so every `commits` value
is ≥ 0 — but the labels are "Week (F−K+1)".."Week F" (1-based positions in
the filtered list before the last-12 window), which coincide with
"Week 1".."Week N" only when `F ≤ 12`. -/
theorem prepareCommitActivityData_window_spec :
    (prepareCommitActivityData none = []) ∧
    (∀ l, (prepareCommitActivityData (some l)).length =
        min (wellFormedWeeks l).length 12) ∧
    (∀ ca, ∀ e ∈ prepareCommitActivityData ca, 0 ≤ e.commits) ∧
    (∀ l, (prepareCommitActivityData (some l)).map (fun e => e.commits) =
        ((wellFormedWeeks l).map (fun p => max 0 p.2)).drop
          ((wellFormedWeeks l).length - 12)) ∧
    (∀ l, (prepareCommitActivityData (some l)).map (fun e => e.week) =
        ((List.range (wellFormedWeeks l).length).map
          (fun j => "Week " ++ toString (j + 1))).drop
          ((wellFormedWeeks l).length - 12)) := by
  refine ⟨rfl, ?_, ?_, ?_, ?_⟩
  · intro l
    simp [prepareCommitActivityData, List.length_drop, labelWeeks_length]
    omega
  · rintro (_ | l) e he
    · exact absurd he (List.not_mem_nil e)
    · have : e ∈ labelWeeks 0 (wellFormedWeeks l) :=
        List.drop_subset _ _ he
      exact labelWeeks_commits_nonneg 0 _ e this
  · intro l
    simp [prepareCommitActivityData, List.map_drop, labelWeeks_map_commits,
      labelWeeks_length]
  · intro l
    simp only [prepareCommitActivityData, List.map_drop, labelWeeks_map_week,
      labelWeeks_length]
    congr 1
    apply List.map_congr_left
    intro a _
    congr 2
    omega

/-- Claim C1 (confirmed): for every valid snapshot — commit-activity totals
that are numbers are non-negative, the reported open-issue count and star
count are non-negative, and both timestamps parse to instants no later than
the `Date.now()` of the call, as the data model requires — the Health
Scorer's overall score is an integer in [0, 100] and each of the five
returned sub-scores lies in [0, 100]. -/
theorem calculateHealthScore_bounds (now : ℚ) (data : RepoAnalytics)
    (hca : ∀ l, data.commitActivity = some l → ∀ o ∈ l, ∀ w, o = some w →
      ∀ t, w.total = some t → 0 ≤ t)
    (hopen : 0 ≤ data.repo.open_issues_count)
    (hstars : 0 ≤ data.repo.stargazers_count)
    (hcreated : ∃ tc, data.repo.created_at = some tc ∧ tc ≤ now)
    (hupdated : ∃ tu, data.repo.updated_at = some tu ∧ tu ≤ now) :
    (∃ n, (calculateHealthScore now data).score = some n ∧ 0 ≤ n ∧ n ≤ 100) ∧
    (0 ≤ (calculateHealthScore now data).metrics.activity ∧
      (calculateHealthScore now data).metrics.activity ≤ 100) ∧
    (0 ≤ (calculateHealthScore now data).metrics.maintenance ∧
      (calculateHealthScore now data).metrics.maintenance ≤ 100) ∧
    (0 ≤ (calculateHealthScore now data).metrics.community ∧
      (calculateHealthScore now data).metrics.community ≤ 100) ∧
    (0 ≤ (calculateHealthScore now data).metrics.documentation ∧
      (calculateHealthScore now data).metrics.documentation ≤ 100) ∧
    (∃ m, (calculateHealthScore now data).metrics.stability = some m ∧
      0 ≤ m ∧ m ≤ 100) := by
  have hrc := recentCommitsQ_nonneg data hca
  obtain ⟨ha0, ha1⟩ := activityScoreQ_bounds data hrc
  obtain ⟨hm0, hm1⟩ := maintenanceScoreQ_bounds data hopen
  obtain ⟨hco0, hco1⟩ := communityScoreQ_bounds data hstars
  obtain ⟨hd0, hd1⟩ := documentationScoreQ_bounds data
  obtain ⟨s, hs, hs0, hs1⟩ := stabilityScoreO_bounds now data hcreated hupdated
  refine ⟨?_, ?_, ?_, ?_, ?_, ?_⟩
  · refine ⟨jround (activityScoreQ data * 0.25 + maintenanceScoreQ data * 0.25 +
      communityScoreQ data * 0.2 + documentationScoreQ data * 0.15 + s * 0.15),
      ?_, ?_⟩
    · show overallScoreO now data = _
      unfold overallScoreO
      rw [hs]
    · exact jround_bounds (by nlinarith) (by nlinarith)
  · exact jround_bounds ha0 ha1
  · exact jround_bounds hm0 hm1
  · exact jround_bounds hco0 hco1
  · exact jround_bounds hd0 hd1
  · refine ⟨jround s, ?_, jround_bounds hs0 hs1⟩
    show (stabilityScoreO now data).map jround = _
    rw [hs]
    rfl

/-- Witness for claim C1 at the concrete snapshot `epochSnap` with the
clock at epoch 0. -/
theorem calculateHealthScore_bounds_witness :
    (∃ n, (calculateHealthScore 0 epochSnap).score = some n ∧ 0 ≤ n ∧ n ≤ 100) ∧
    (0 ≤ (calculateHealthScore 0 epochSnap).metrics.activity ∧
      (calculateHealthScore 0 epochSnap).metrics.activity ≤ 100) ∧
    (0 ≤ (calculateHealthScore 0 epochSnap).metrics.maintenance ∧
      (calculateHealthScore 0 epochSnap).metrics.maintenance ≤ 100) ∧
    (0 ≤ (calculateHealthScore 0 epochSnap).metrics.community ∧
      (calculateHealthScore 0 epochSnap).metrics.community ≤ 100) ∧
    (0 ≤ (calculateHealthScore 0 epochSnap).metrics.documentation ∧
      (calculateHealthScore 0 epochSnap).metrics.documentation ≤ 100) ∧
    (∃ m, (calculateHealthScore 0 epochSnap).metrics.stability = some m ∧
      0 ≤ m ∧ m ≤ 100) :=
  calculateHealthScore_bounds 0 epochSnap
    (by intro l h; simp [epochSnap] at h)
    (by norm_num [epochSnap])
    (by norm_num [epochSnap])
    ⟨0, rfl, le_refl 0⟩
    ⟨0, rfl, le_refl 0⟩

/-- Claim C2 (counterexample): six languages with one byte each all round to
16.7%, so the returned percentages sum to 100.2 — not within the claimed
±0.1 of 100. -/
theorem prepareLanguageData_sum_outside_tenth :
    ¬ |((prepareLanguageData sixEqualLanguages).map (fun d => d.percentage)).sum
        - 100| ≤ 1 / 10 := by
  norm_num [prepareLanguageData, sixEqualLanguages, sortDescBy, insertDescBy,
    toFixed1, List.filter, getLanguageColors, Int.floor_eq_iff, abs_le]

/-- Claim C2 (amended): for a LanguageBytes map with non-negative byte
counts, at most 6 non-zero entries and a positive total, the language
distribution returns one entry per non-zero language, each with percentage
equal to its share of the total rounded to one decimal, and the sum of the
returned percentages equals 100.0 within ±0.3 (each of the ≤ 6 roundings can
contribute up to 0.05); excluded languages do not occur (nothing is cut by
the top-6 truncation under these hypotheses). -/
theorem prepareLanguageData_top6_spec (languages : List (String × ℚ))
    (hnn : ∀ p ∈ languages, 0 ≤ p.2)
    (h6 : (languages.filter (fun p => decide (p.2 ≠ 0))).length ≤ 6)
    (hpos : 0 < (languages.map (fun p => p.2)).sum) :
    (prepareLanguageData languages).length =
      (languages.filter (fun p => decide (p.2 ≠ 0))).length ∧
    (∀ d ∈ prepareLanguageData languages,
      d.percentage = toFixed1 (d.value /
        (languages.map (fun p => p.2)).sum * 100)) ∧
    |((prepareLanguageData languages).map (fun d => d.percentage)).sum - 100|
      ≤ 3 / 10 := by
  have hne : languages.isEmpty = false := by
    cases languages with
    | nil => simp at hpos
    | cons x xs => rfl
  have htz : ¬ (languages.map (fun p => p.2)).sum = 0 := ne_of_gt hpos
  have hfe : languages.filter (fun p => decide (0 < p.2)) =
      languages.filter (fun p => decide (p.2 ≠ 0)) := by
    apply List.filter_congr
    intro p hp
    have h := hnn p hp
    apply decide_eq_decide.2
    constructor
    · intro h1; exact ne_of_gt h1
    · intro h1; exact lt_of_le_of_ne h (Ne.symm h1)
  have hout : prepareLanguageData languages =
      (sortDescBy (fun d => d.value)
        ((languages.filter (fun p => 0 < p.2)).map (fun p =>
          { name := p.1
            value := p.2
            percentage := toFixed1 (p.2 / (languages.map (fun p => p.2)).sum * 100)
            color := ((getLanguageColors.lookup p.1).getD "#8884d8") }))).take 6 := by
    unfold prepareLanguageData
    rw [hne]
    simp only [Bool.false_eq_true, if_false, htz, if_neg, not_false_iff]
  set total := (languages.map (fun p => p.2)).sum with htot
  set mapped := (languages.filter (fun p => 0 < p.2)).map (fun p =>
    ({ name := p.1
       value := p.2
       percentage := toFixed1 (p.2 / total * 100)
       color := ((getLanguageColors.lookup p.1).getD "#8884d8") } : LanguageData))
    with hmapped
  have hperm := sortDescBy_perm (fun d : LanguageData => d.value) mapped
  have hlenm : mapped.length =
      (languages.filter (fun p => decide (p.2 ≠ 0))).length := by
    rw [hmapped, List.length_map, hfe]
  have hlen : (sortDescBy (fun d : LanguageData => d.value) mapped).length ≤ 6 := by
    rw [hperm.length_eq, hlenm]; exact h6
  have htake : (sortDescBy (fun d : LanguageData => d.value) mapped).take 6 =
      sortDescBy (fun d : LanguageData => d.value) mapped :=
    List.take_of_length_le hlen
  rw [hout, htake]
  refine ⟨?_, ?_, ?_⟩
  · rw [hperm.length_eq, hlenm]
  · intro d hd
    have hdm : d ∈ mapped := hperm.mem_iff.1 hd
    rw [hmapped] at hdm
    obtain ⟨p, hp, rfl⟩ := List.mem_map.1 hdm
    rfl
  · have hsum1 : ((sortDescBy (fun d : LanguageData => d.value) mapped).map
        (fun d => d.percentage)).sum = (mapped.map (fun d => d.percentage)).sum :=
      (hperm.map (fun d => d.percentage)).sum_eq
    have hsum2 : mapped.map (fun d => d.percentage) =
        ((languages.filter (fun p => 0 < p.2)).map
          (fun p => p.2 / total * 100)).map toFixed1 := by
      rw [hmapped, List.map_map, List.map_map]
      rfl
    have hP : ((languages.filter (fun p => 0 < p.2)).map
        (fun p => p.2 / total * 100)).sum = 100 := by
      have e1 : (languages.filter (fun p => 0 < p.2)).map
          (fun p => p.2 / total * 100) =
          (languages.filter (fun p => 0 < p.2)).map
            (fun p => p.2 * (100 / total)) := by
        apply List.map_congr_left
        intro p _
        field_simp
      rw [e1, sum_map_snd_mul_const]
      have e2 : ((languages.filter (fun p => decide (0 < p.2))).map
          (fun p => p.2)).sum = total := by
        rw [sum_filter_pos_of_nonneg languages hnn]
      rw [e2]
      field_simp
    have hclose := sum_map_toFixed1_close
      ((languages.filter (fun p => 0 < p.2)).map (fun p => p.2 / total * 100))
    rw [hP] at hclose
    have hlenP : (((languages.filter (fun p => 0 < p.2)).map
        (fun p => p.2 / total * 100)).length : ℚ) ≤ 6 := by
      rw [List.length_map]
      have : (languages.filter (fun p => decide (0 < p.2))).length ≤ 6 := by
        rw [hfe]; exact h6
      exact_mod_cast this
    rw [hsum1, hsum2]
    calc |(((languages.filter (fun p => 0 < p.2)).map
          (fun p => p.2 / total * 100)).map toFixed1).sum - 100|
        ≤ (((languages.filter (fun p => 0 < p.2)).map
          (fun p => p.2 / total * 100)).length : ℚ) / 20 := hclose
      _ ≤ 6 / 20 := by linarith
      _ = 3 / 10 := by norm_num

/-- Witness for claim C2 at the six-equal-languages input. -/
theorem prepareLanguageData_top6_spec_witness :
    (∀ p ∈ sixEqualLanguages, 0 ≤ p.2) ∧
    (sixEqualLanguages.filter (fun p => decide (p.2 ≠ 0))).length ≤ 6 ∧
    0 < (sixEqualLanguages.map (fun p => p.2)).sum ∧
    |((prepareLanguageData sixEqualLanguages).map (fun d => d.percentage)).sum
      - 100| ≤ 3 / 10 :=
  ⟨by norm_num [sixEqualLanguages],
   by norm_num [sixEqualLanguages, List.filter],
   by norm_num [sixEqualLanguages],
   (prepareLanguageData_top6_spec sixEqualLanguages
     (by norm_num [sixEqualLanguages])
     (by norm_num [sixEqualLanguages, List.filter])
     (by norm_num [sixEqualLanguages])).2.2⟩

/-- Claim C10 (confirmed): `validateRepoUrl` succeeds exactly on strings of
the form `https://github.com/<owner>/<repo>` with an optional trailing `/`
or `.git` (owner and repo non-empty and `/`-free), and whenever it returns,
the returned owner and repo are non-empty and contain no `/`; on any other
string it throws `'Invalid GitHub repository URL'` (modelled `none`). -/
theorem validateRepoUrl_spec :
    (∀ url : List Char,
       (validateRepoUrl url).isSome ↔
         ∃ ow rp t, (t = [] ∨ t = ['/'] ∨ t = gitSuffixChars) ∧
           ow ≠ [] ∧ rp ≠ [] ∧ ow.contains '/' = false ∧
           rp.contains '/' = false ∧
           url = ghUrlHead ++ ow ++ '/' :: (rp ++ t)) ∧
    (∀ url ow rp, validateRepoUrl url = some (ow, rp) →
       ow ≠ [] ∧ rp ≠ [] ∧ ow.contains '/' = false ∧
       rp.contains '/' = false) := by
  constructor
  · intro url
    constructor
    · intro h
      obtain ⟨pair, hpair⟩ := Option.isSome_iff_exists.1 h
      obtain ⟨ow, rp⟩ := pair
      obtain ⟨how, hrp, hcow, hcrp, t, ht, hurl⟩ := validateRepoUrl_eq_some hpair
      exact ⟨ow, rp, t, ht, how, hrp, hcow, hcrp, hurl⟩
    · rintro ⟨ow, rp, t, ht, how, hrp, hcow, hcrp, rfl⟩
      exact validateRepoUrl_isSome_of ht how hrp hcow hcrp
  · intro url ow rp h
    obtain ⟨how, hrp, hcow, hcrp, _⟩ := validateRepoUrl_eq_some h
    exact ⟨how, hrp, hcow, hcrp⟩

/-- Witness for claim C10 at the concrete URL
`https://github.com/foo/bar.git`. -/
theorem validateRepoUrl_spec_witness :
    "foo".toList ≠ [] ∧ "bar".toList ≠ [] ∧
    "foo".toList.contains '/' = false ∧ "bar".toList.contains '/' = false :=
  validateRepoUrl_spec.2 "https://github.com/foo/bar.git".toList
    "foo".toList "bar".toList (by decide)

end ProductViz
